import Mathlib

/-!
Shallow embedding of `tmd/bilayer/dgrid.py` and `tmd/bilayer/plot_ds.py`.

Real numbers of the Python code are modelled by `ℚ` (exact arithmetic);
Python dicts are modelled by insertion-ordered association lists; routines
imported from modules outside these two files (`get_material`, `build_qe`,
`build_bands`, `yaml.dump`, `fermi_from_scf`, `D_from_scf`, `HrFindGaps`,
ordinary filesystem primitives) are opaque function parameters, since the
claims under study are parametric in their behaviour.  Filesystem side
effects of `dgrid.py` are modelled by an explicit filesystem state plus an
operation trace, with `os.mkdir` failing exactly on an existing path.
-/

namespace Tmd

/-- A Python value stored in a displacement-grid entry dict: either the
material record (an opaque value of type `μ`, built by `get_material`) or a
text value (the contents of a built input file). -/
inductive PyVal (μ : Type) where
  | mat (m : μ)
  | str (s : String)
deriving DecidableEq, Repr

/-- Model of `np.linspace(0.0, 1.0, num, endpoint=False)` in exact arithmetic: the
`num` equally spaced points `i / num` for `0 ≤ i < num`, the endpoint `1.0`
excluded (dgrid.py lines 14-15). -/
def linspace01 (num : Nat) : List ℚ :=
  (List.range num).map (fun (i : Nat) => (i : ℚ) / (num : ℚ))

/-- The per-displacement dict built by the loop body of `dgrid_inputs`
(dgrid.py lines 21-28): key `"material"` first, then `"scf"`, `"nscf"`,
`"bands"` from `build_qe`, then `"bands_post"` from `build_bands`. -/
def dgrid_entry {μ : Type}
    (get_material : String → String → Option String → Option ℚ → ℚ → ℚ → μ)
    (build_qe : μ → String → String) (build_bands : μ → String)
    (db_path sym_A : String) (sym_B : Option String) (c_sep : Option ℚ)
    (d_a d_b : ℚ) : List (String × PyVal μ) :=
  let material := get_material db_path sym_A sym_B c_sep d_a d_b
  (List.foldl
    (fun acc calc_type => acc ++ [(calc_type, PyVal.str (build_qe material calc_type))])
    [("material", PyVal.mat material)] ["scf", "nscf", "bands"])
  ++ [("bands_post", PyVal.str (build_bands material))]

/-- Model of `dgrid_inputs` (dgrid.py lines 9-30).  When `sym_B` is `None` both
displacement lists collapse to `[0.0]`; otherwise they are
`np.linspace(0.0, 1.0, num, endpoint=False)`.  The returned dict is
modelled as the association list produced in insertion order by the two
nested loops. -/
def dgrid_inputs {μ : Type}
    (get_material : String → String → Option String → Option ℚ → ℚ → ℚ → μ)
    (build_qe : μ → String → String) (build_bands : μ → String)
    (db_path sym_A : String) (sym_B : Option String) (c_sep : Option ℚ)
    (num_d_a num_d_b : Nat) : List ((ℚ × ℚ) × List (String × PyVal μ)) :=
  let d_as := match sym_B with
    | none => [(0 : ℚ)]
    | some _ => linspace01 num_d_a
  let d_bs := match sym_B with
    | none => [(0 : ℚ)]
    | some _ => linspace01 num_d_b
  d_as.flatMap (fun d_a => d_bs.map (fun d_b =>
    ((d_a, d_b),
     dgrid_entry get_material build_qe build_bands db_path sym_A sym_B c_sep d_a d_b)))

theorem linspace01_nodup (num : Nat) : (linspace01 num).Nodup := by
  rw [linspace01]
  apply List.Nodup.map_on _ (List.nodup_range num)
  intro x hx y hy hxy
  rcases Nat.eq_zero_or_pos num with h0 | hpos
  · simp [h0] at hx
  · have hn : ((num : ℚ)) ≠ 0 := by
      exact_mod_cast Nat.pos_iff_ne_zero.mp hpos
    field_simp at hxy
    exact_mod_cast hxy

theorem dgrid_keys_some {μ : Type}
    (get_material : String → String → Option String → Option ℚ → ℚ → ℚ → μ)
    (build_qe : μ → String → String) (build_bands : μ → String)
    (db_path sym_A : String) (sB : String) (c_sep : Option ℚ)
    (num_d_a num_d_b : Nat) :
    (dgrid_inputs get_material build_qe build_bands db_path sym_A (some sB) c_sep
        num_d_a num_d_b).map Prod.fst =
      (linspace01 num_d_a).flatMap (fun d_a =>
        (linspace01 num_d_b).map (fun d_b => (d_a, d_b))) := by
  simp only [dgrid_inputs, List.map_flatMap, List.map_map]
  rfl

/-- C1: with `sym_B` present, the keys of `dgrid_inputs` are exactly the
`num_d_a * num_d_b` pairs `(i/num_d_a, j/num_d_b)` with `0 ≤ i < num_d_a`,
`0 ≤ j < num_d_b` (a 2D grid over `[0,1)` with the endpoint excluded), with
no duplicates; with `sym_B = None`, the single key is `(0.0, 0.0)`. -/
theorem dgrid_inputs_keys {μ : Type}
    (get_material : String → String → Option String → Option ℚ → ℚ → ℚ → μ)
    (build_qe : μ → String → String) (build_bands : μ → String)
    (db_path sym_A : String) (c_sep : Option ℚ) (num_d_a num_d_b : Nat) :
    (∀ sB : String,
      (dgrid_inputs get_material build_qe build_bands db_path sym_A (some sB) c_sep
          num_d_a num_d_b).map Prod.fst =
        (List.range num_d_a).flatMap (fun (i : Nat) => (List.range num_d_b).map (fun (j : Nat) =>
          ((i : ℚ) / (num_d_a : ℚ), (j : ℚ) / (num_d_b : ℚ))))
      ∧ ((dgrid_inputs get_material build_qe build_bands db_path sym_A (some sB) c_sep
          num_d_a num_d_b).map Prod.fst).length = num_d_a * num_d_b
      ∧ ((dgrid_inputs get_material build_qe build_bands db_path sym_A (some sB) c_sep
          num_d_a num_d_b).map Prod.fst).Nodup)
    ∧ (dgrid_inputs get_material build_qe build_bands db_path sym_A none c_sep
        num_d_a num_d_b).map Prod.fst = [((0 : ℚ), (0 : ℚ))] := by
  constructor
  · intro sB
    have hkeys := dgrid_keys_some get_material build_qe build_bands db_path sym_A sB
      c_sep num_d_a num_d_b
    refine ⟨?_, ?_, ?_⟩
    · rw [hkeys]
      simp only [linspace01, List.flatMap_map, List.map_map]
      rfl
    · rw [hkeys, List.length_flatMap]
      simp [linspace01, Function.comp_def, List.map_const', List.sum_replicate, Nat.mul_comm]
    · rw [hkeys]
      rw [List.nodup_flatMap]
      constructor
      · intro x _
        exact (linspace01_nodup num_d_b).map (fun b b' h => congrArg Prod.snd h)
      · have hnd := linspace01_nodup num_d_a
        refine List.Pairwise.imp_of_mem ?_ hnd
        intro a a' ha ha' hne
        intro p hp hp'
        simp only [List.mem_map] at hp hp'
        obtain ⟨b, _, rfl⟩ := hp
        obtain ⟨b', _, hb'⟩ := hp'
        exact hne (congrArg Prod.fst hb'.symm)
  · simp [dgrid_inputs]

/-- C4: every value in the dict returned by `dgrid_inputs` is a dict whose
keys are exactly `"material"`, `"scf"`, `"nscf"`, `"bands"`, `"bands_post"`,
where the three QE entries are `build_qe material calc_type` for the
matching `calc_type` and `"bands_post"` is `build_bands material`, with
`material = get_material db_path sym_A sym_B c_sep d_a d_b` for that grid
point `(d_a, d_b)`. -/
theorem dgrid_inputs_entry_values {μ : Type}
    (get_material : String → String → Option String → Option ℚ → ℚ → ℚ → μ)
    (build_qe : μ → String → String) (build_bands : μ → String)
    (db_path sym_A : String) (sym_B : Option String) (c_sep : Option ℚ)
    (num_d_a num_d_b : Nat) :
    ∀ kv ∈ dgrid_inputs get_material build_qe build_bands db_path sym_A sym_B c_sep
        num_d_a num_d_b,
      kv.2 =
        [("material", PyVal.mat (get_material db_path sym_A sym_B c_sep kv.1.1 kv.1.2)),
         ("scf", PyVal.str (build_qe (get_material db_path sym_A sym_B c_sep kv.1.1 kv.1.2) "scf")),
         ("nscf", PyVal.str (build_qe (get_material db_path sym_A sym_B c_sep kv.1.1 kv.1.2) "nscf")),
         ("bands", PyVal.str (build_qe (get_material db_path sym_A sym_B c_sep kv.1.1 kv.1.2) "bands")),
         ("bands_post", PyVal.str (build_bands (get_material db_path sym_A sym_B c_sep kv.1.1 kv.1.2)))]
      ∧ kv.2.map Prod.fst = ["material", "scf", "nscf", "bands", "bands_post"] := by
  intro kv hkv
  simp only [dgrid_inputs, List.mem_flatMap, List.mem_map] at hkv
  obtain ⟨d_a, _, d_b, _, rfl⟩ := hkv
  exact ⟨rfl, rfl⟩

theorem dgrid_inputs_entry_values_witness :
    ((((0 : ℚ), (0 : ℚ)),
       dgrid_entry (fun _ _ _ _ _ _ => "M") (fun _ ct => ct) (fun _ => "BP")
         "db" "A" none none 0 0) ∈
      dgrid_inputs (fun _ _ _ _ _ _ => "M") (fun _ ct => ct) (fun _ => "BP")
        "db" "A" none none 1 1)
    ∧ ((dgrid_entry (fun _ _ _ _ _ _ => "M") (fun _ ct => ct) (fun _ => "BP")
         "db" "A" none none 0 0) =
        [("material", PyVal.mat "M"), ("scf", PyVal.str "scf"),
         ("nscf", PyVal.str "nscf"), ("bands", PyVal.str "bands"),
         ("bands_post", PyVal.str "BP")]
      ∧ (dgrid_entry (fun _ _ _ _ _ _ => "M") (fun _ ct => ct) (fun _ => "BP")
          "db" "A" none none 0 0).map Prod.fst =
         ["material", "scf", "nscf", "bands", "bands_post"]) :=
  ⟨List.Mem.head _,
   dgrid_inputs_entry_values (fun _ _ _ _ _ _ => "M") (fun _ ct => ct)
     (fun _ => "BP") "db" "A" none none 1 1
     (((0 : ℚ), (0 : ℚ)),
      dgrid_entry (fun _ _ _ _ _ _ => "M") (fun _ ct => ct) (fun _ => "BP")
        "db" "A" none none 0 0)
     (List.Mem.head _)⟩

/-! ### Filesystem model for `write_dgrid` / `_write_dv` (dgrid.py lines 32-74) -/

/-- Model of `os.path.join` for the two-component POSIX joins used in dgrid.py. -/
def joinPath (a b : String) : String := a ++ "/" ++ b

/-- Errors a `_write_dv` run can raise: a missing dict key (`KeyError`), a
value of the wrong kind (`TypeError`), or `os.mkdir` on an existing path
(`FileExistsError`). -/
inductive FsErr where
  | keyError
  | typeError
  | fileExists
deriving DecidableEq

/-- Directories and regular files present on disk. -/
structure FS where
  dirs : List String
  files : List (String × String)
deriving DecidableEq

/-- Model of `os.path.exists`: true for an existing directory or file. -/
def FS.pathExists (fs : FS) (p : String) : Bool :=
  fs.dirs.contains p || (fs.files.map Prod.fst).contains p

/-- One recorded filesystem side effect. -/
inductive FsOp where
  | mkdirOp (p : String)
  | writeOp (p : String) (contents : String)
deriving DecidableEq

/-- Filesystem state paired with the trace of operations performed so far. -/
abbrev FsM := FS × List FsOp

/-- Model of `os.mkdir`: raises `FileExistsError` iff the path already exists,
otherwise creates the directory (and records the operation). -/
def mkdir (s : FsM) (p : String) : Except FsErr FsM :=
  if s.1.pathExists p then .error .fileExists
  else .ok ({ s.1 with dirs := s.1.dirs ++ [p] }, s.2 ++ [.mkdirOp p])

/-- Model of `open(path, 'w')` followed by `fp.write(contents)`: creates the file or
truncates an existing one (and records the operation). -/
def writeFile (s : FsM) (p : String) (contents : String) : FsM :=
  (if (s.1.files.map Prod.fst).contains p then
    { s.1 with files := s.1.files.map (fun pc => if pc.1 = p then (p, contents) else pc) }
   else { s.1 with files := s.1.files ++ [(p, contents)] },
   s.2 ++ [.writeOp p contents])

/-- Python dict access `dv[k]`: `KeyError` when the key is absent. -/
def getItem {μ : Type} (dv : List (String × PyVal μ)) (k : String) :
    Except FsErr (PyVal μ) :=
  match dv.lookup k with
  | some v => .ok v
  | none => .error .keyError

/-- Using a dict value as the material record (`dv["material"]["prefix"]`
needs a dict, not a string). -/
def asMaterial {μ : Type} : PyVal μ → Except FsErr μ
  | .mat m => .ok m
  | .str _ => .error .typeError

/-- Using a dict value as text to be written (`fp.write` needs a string). -/
def asText {μ : Type} : PyVal μ → Except FsErr String
  | .str s => .ok s
  | .mat _ => .error .typeError

/-- Model of `_write_dv` (dgrid.py lines 36-74).  `pfxOf` models the dict access
`material["prefix"]` on the opaque material record and `yamlDump` models
`yaml.dump`.  Every `os.mkdir` is guarded by the `os.path.exists` check of
the source, in source order: `base_path`, the per-prefix directory, the
`material.yaml` write, the `wannier` and `bands` directories, then the four
input-file writes. -/
def guardedMkdir (s : FsM) (p : String) : Except FsErr FsM :=
  if s.1.pathExists p then pure s else mkdir s p

def _write_dv {μ : Type} (pfxOf : μ → String) (yamlDump : μ → String)
    (base_path : String) (dv : List (String × PyVal μ)) (s : FsM) :
    Except FsErr FsM := do
  let s ← guardedMkdir s base_path
  let m ← asMaterial (← getItem dv "material")
  let pfx := pfxOf m
  let d_dir_path := joinPath base_path pfx
  let s ← guardedMkdir s d_dir_path
  let material_path := joinPath d_dir_path "material.yaml"
  let s := writeFile s material_path (yamlDump m)
  let wannier_dir_path := joinPath d_dir_path "wannier"
  let bands_dir_path := joinPath d_dir_path "bands"
  let s ← guardedMkdir s wannier_dir_path
  let s ← guardedMkdir s bands_dir_path
  let scf_path := joinPath wannier_dir_path (pfx ++ ".scf.in")
  let nscf_path := joinPath wannier_dir_path (pfx ++ ".nscf.in")
  let bands_path := joinPath bands_dir_path (pfx ++ ".bands.in")
  let bands_post_path := joinPath bands_dir_path (pfx ++ ".bands_post.in")
  let s := writeFile s scf_path (← asText (← getItem dv "scf"))
  let s := writeFile s nscf_path (← asText (← getItem dv "nscf"))
  let s := writeFile s bands_path (← asText (← getItem dv "bands"))
  let s := writeFile s bands_post_path (← asText (← getItem dv "bands_post"))
  pure s

/-- Model of `write_dgrid` (dgrid.py lines 32-34): run `_write_dv` on every entry of
the grid dict, in insertion order. -/
def write_dgrid {μ : Type} (pfxOf : μ → String) (yamlDump : μ → String)
    (base_path : String) (dgrid : List ((ℚ × ℚ) × List (String × PyVal μ)))
    (s : FsM) : Except FsErr FsM :=
  List.foldlM (fun s kv => _write_dv pfxOf yamlDump base_path kv.2 s) s dgrid

/-- The guarded-mkdir idiom of `_write_dv` as a total state transformer. -/
def mkdirIfAbsent (s : FsM) (p : String) : FsM :=
  if s.1.pathExists p then s
  else ({ s.1 with dirs := s.1.dirs ++ [p] }, s.2 ++ [FsOp.mkdirOp p])

theorem guardMkdir_eq (s : FsM) (p : String) :
    guardedMkdir s p = .ok (mkdirIfAbsent s p) := by
  rw [guardedMkdir, mkdirIfAbsent]
  split
  · rfl
  · simp [mkdir, *]

/-- The file write recorded by an operation, if any. -/
def writeOf : FsOp → Option (String × String)
  | .writeOp p c => some (p, c)
  | .mkdirOp _ => none

/-- The file writes performed by a run, in order (none if it raised). -/
def writesOf {ε : Type} : Except ε FsM → List (String × String)
  | .ok s => s.2.filterMap writeOf
  | .error _ => []

@[simp] theorem mkdirIfAbsent_trace_writes (s : FsM) (p : String) :
    (mkdirIfAbsent s p).2.filterMap writeOf = s.2.filterMap writeOf := by
  rw [mkdirIfAbsent]
  split <;> simp [writeOf]

@[simp] theorem writeFile_trace_writes (s : FsM) (p c : String) :
    (writeFile s p c).2.filterMap writeOf = s.2.filterMap writeOf ++ [(p, c)] := by
  simp [writeFile, writeOf]

theorem except_bind_ok {ε α β : Type} (a : α) (f : α → Except ε β) :
    ((Except.ok a : Except ε α) >>= f) = f a := rfl

theorem except_bind_err {ε α β : Type} (e : ε) (f : α → Except ε β) :
    ((Except.error e : Except ε α) >>= f) = Except.error e := rfl

theorem dgrid_entry_lookup_material {μ : Type}
    (get_material : String → String → Option String → Option ℚ → ℚ → ℚ → μ)
    (build_qe : μ → String → String) (build_bands : μ → String)
    (db_path sym_A : String) (sym_B : Option String) (c_sep : Option ℚ) (d_a d_b : ℚ) :
    getItem (dgrid_entry get_material build_qe build_bands db_path sym_A sym_B c_sep d_a d_b)
        "material" =
      .ok (PyVal.mat (get_material db_path sym_A sym_B c_sep d_a d_b)) := rfl

theorem dgrid_entry_lookup_scf {μ : Type}
    (get_material : String → String → Option String → Option ℚ → ℚ → ℚ → μ)
    (build_qe : μ → String → String) (build_bands : μ → String)
    (db_path sym_A : String) (sym_B : Option String) (c_sep : Option ℚ) (d_a d_b : ℚ) :
    getItem (dgrid_entry get_material build_qe build_bands db_path sym_A sym_B c_sep d_a d_b)
        "scf" =
      .ok (PyVal.str (build_qe (get_material db_path sym_A sym_B c_sep d_a d_b) "scf")) := rfl

theorem dgrid_entry_lookup_nscf {μ : Type}
    (get_material : String → String → Option String → Option ℚ → ℚ → ℚ → μ)
    (build_qe : μ → String → String) (build_bands : μ → String)
    (db_path sym_A : String) (sym_B : Option String) (c_sep : Option ℚ) (d_a d_b : ℚ) :
    getItem (dgrid_entry get_material build_qe build_bands db_path sym_A sym_B c_sep d_a d_b)
        "nscf" =
      .ok (PyVal.str (build_qe (get_material db_path sym_A sym_B c_sep d_a d_b) "nscf")) := rfl

theorem dgrid_entry_lookup_bands {μ : Type}
    (get_material : String → String → Option String → Option ℚ → ℚ → ℚ → μ)
    (build_qe : μ → String → String) (build_bands : μ → String)
    (db_path sym_A : String) (sym_B : Option String) (c_sep : Option ℚ) (d_a d_b : ℚ) :
    getItem (dgrid_entry get_material build_qe build_bands db_path sym_A sym_B c_sep d_a d_b)
        "bands" =
      .ok (PyVal.str (build_qe (get_material db_path sym_A sym_B c_sep d_a d_b) "bands")) := rfl

theorem dgrid_entry_lookup_bands_post {μ : Type}
    (get_material : String → String → Option String → Option ℚ → ℚ → ℚ → μ)
    (build_qe : μ → String → String) (build_bands : μ → String)
    (db_path sym_A : String) (sym_B : Option String) (c_sep : Option ℚ) (d_a d_b : ℚ) :
    getItem (dgrid_entry get_material build_qe build_bands db_path sym_A sym_B c_sep d_a d_b)
        "bands_post" =
      .ok (PyVal.str (build_bands (get_material db_path sym_A sym_B c_sep d_a d_b))) := rfl

/-- The five file writes the spec attributes to one dgrid entry whose
material record is `m`: `material.yaml` under the prefix directory, the
`scf`/`nscf` inputs under `wannier`, and the `bands`/`bands_post` inputs
under `bands`. -/
def entryWrites {μ : Type} (pfxOf : μ → String) (yamlDump : μ → String)
    (build_qe : μ → String → String) (build_bands : μ → String)
    (base_path : String) (m : μ) : List (String × String) :=
  [(joinPath (joinPath base_path (pfxOf m)) "material.yaml", yamlDump m),
   (joinPath (joinPath (joinPath base_path (pfxOf m)) "wannier") (pfxOf m ++ ".scf.in"),
    build_qe m "scf"),
   (joinPath (joinPath (joinPath base_path (pfxOf m)) "wannier") (pfxOf m ++ ".nscf.in"),
    build_qe m "nscf"),
   (joinPath (joinPath (joinPath base_path (pfxOf m)) "bands") (pfxOf m ++ ".bands.in"),
    build_qe m "bands"),
   (joinPath (joinPath (joinPath base_path (pfxOf m)) "bands") (pfxOf m ++ ".bands_post.in"),
    build_bands m)]

theorem write_dv_entry_run {μ : Type} (pfxOf : μ → String) (yamlDump : μ → String)
    (get_material : String → String → Option String → Option ℚ → ℚ → ℚ → μ)
    (build_qe : μ → String → String) (build_bands : μ → String)
    (base_path db_path sym_A : String) (sym_B : Option String) (c_sep : Option ℚ)
    (d_a d_b : ℚ) (s : FsM) :
    ∃ s' : FsM,
      _write_dv pfxOf yamlDump base_path
          (dgrid_entry get_material build_qe build_bands db_path sym_A sym_B c_sep d_a d_b)
          s = .ok s'
      ∧ s'.2.filterMap writeOf =
          s.2.filterMap writeOf ++
            entryWrites pfxOf yamlDump build_qe build_bands base_path
              (get_material db_path sym_A sym_B c_sep d_a d_b) := by
  simp only [_write_dv, guardMkdir_eq, dgrid_entry_lookup_material, dgrid_entry_lookup_scf,
    dgrid_entry_lookup_nscf, dgrid_entry_lookup_bands, dgrid_entry_lookup_bands_post,
    asMaterial, asText, except_bind_ok]
  refine ⟨_, rfl, ?_⟩
  simp [entryWrites, List.filterMap_append]

theorem write_dgrid_mapped_run {μ : Type} (pfxOf : μ → String) (yamlDump : μ → String)
    (get_material : String → String → Option String → Option ℚ → ℚ → ℚ → μ)
    (build_qe : μ → String → String) (build_bands : μ → String)
    (base_path db_path sym_A : String) (sym_B : Option String) (c_sep : Option ℚ)
    (ks : List (ℚ × ℚ)) : ∀ s : FsM,
    ∃ s' : FsM,
      write_dgrid pfxOf yamlDump base_path
          (ks.map (fun k =>
            (k, dgrid_entry get_material build_qe build_bands db_path sym_A sym_B c_sep
                  k.1 k.2))) s = .ok s'
      ∧ s'.2.filterMap writeOf =
          s.2.filterMap writeOf ++
            ks.flatMap (fun k =>
              entryWrites pfxOf yamlDump build_qe build_bands base_path
                (get_material db_path sym_A sym_B c_sep k.1 k.2)) := by
  induction ks with
  | nil => intro s; exact ⟨s, rfl, by simp⟩
  | cons k ks ih =>
    intro s
    obtain ⟨s1, h1, t1⟩ := write_dv_entry_run pfxOf yamlDump get_material build_qe
      build_bands base_path db_path sym_A sym_B c_sep k.1 k.2 s
    obtain ⟨s2, h2, t2⟩ := ih s1
    refine ⟨s2, ?_, ?_⟩
    · rw [List.map_cons, write_dgrid, List.foldlM_cons, h1, except_bind_ok]
      rw [write_dgrid] at h2
      exact h2
    · rw [t2, t1, List.flatMap_cons, List.append_assoc]

/-- C5: running `write_dgrid` on the grid built by `dgrid_inputs` succeeds
and its file writes are, entry by entry in grid order, exactly the five
files of each entry: `base_path/p/material.yaml` holding the YAML dump of
the entry's material, `base_path/p/wannier/p.scf.in` and `.nscf.in`
holding the `"scf"` and `"nscf"` strings, and `base_path/p/bands/p.bands.in`
and `.bands_post.in` holding the `"bands"` and `"bands_post"` strings,
where `p` is the entry's material prefix. -/
theorem write_dgrid_writes {μ : Type} (pfxOf : μ → String) (yamlDump : μ → String)
    (get_material : String → String → Option String → Option ℚ → ℚ → ℚ → μ)
    (build_qe : μ → String → String) (build_bands : μ → String)
    (base_path db_path sym_A : String) (sym_B : Option String) (c_sep : Option ℚ)
    (num_d_a num_d_b : Nat) (fs : FS) :
    writesOf (write_dgrid pfxOf yamlDump base_path
        (dgrid_inputs get_material build_qe build_bands db_path sym_A sym_B c_sep
          num_d_a num_d_b) (fs, [])) =
      (dgrid_inputs get_material build_qe build_bands db_path sym_A sym_B c_sep
          num_d_a num_d_b).flatMap (fun kv =>
        entryWrites pfxOf yamlDump build_qe build_bands base_path
          (get_material db_path sym_A sym_B c_sep kv.1.1 kv.1.2))
    ∧ (write_dgrid pfxOf yamlDump base_path
        (dgrid_inputs get_material build_qe build_bands db_path sym_A sym_B c_sep
          num_d_a num_d_b) (fs, [])).isOk = true := by
  have hrepr : dgrid_inputs get_material build_qe build_bands db_path sym_A sym_B c_sep
      num_d_a num_d_b =
      ((match sym_B with
          | none => [(0 : ℚ)]
          | some _ => linspace01 num_d_a).flatMap (fun a =>
        (match sym_B with
          | none => [(0 : ℚ)]
          | some _ => linspace01 num_d_b).map (fun b => (a, b)))).map
        (fun k =>
          (k, dgrid_entry get_material build_qe build_bands db_path sym_A sym_B c_sep
                k.1 k.2)) := by
    cases sym_B <;> simp only [dgrid_inputs, List.map_flatMap, List.map_map] <;> rfl
  rw [hrepr]
  obtain ⟨s', h, t⟩ := write_dgrid_mapped_run pfxOf yamlDump get_material build_qe
    build_bands base_path db_path sym_A sym_B c_sep _ (fs, [])
  rw [h]
  refine ⟨?_, rfl⟩
  rw [writesOf, t]
  simp [List.flatMap_map]

/-- Did the run abort with `FileExistsError`? -/
def isFileExistsErr {α : Type} : Except FsErr α → Bool
  | .error .fileExists => true
  | _ => false

theorem getItem_error_keyError {μ : Type} (dv : List (String × PyVal μ)) (k : String)
    (e : FsErr) (h : getItem dv k = .error e) : e = .keyError := by
  unfold getItem at h
  rcases hl : List.lookup k dv with _ | v
  · rw [hl] at h
    injection h with h2
    exact h2.symm
  · rw [hl] at h
    exact Except.noConfusion h

theorem asMaterial_error_typeError {μ : Type} (v : PyVal μ) (e : FsErr)
    (h : asMaterial v = .error e) : e = .typeError := by
  cases v with
  | mat m => cases h
  | str s => cases h; rfl

theorem asText_error_typeError {μ : Type} (v : PyVal μ) (e : FsErr)
    (h : asText v = .error e) : e = .typeError := by
  cases v with
  | mat m => cases h; rfl
  | str s => cases h

theorem write_dv_no_fileExists {μ : Type} (pfxOf : μ → String) (yamlDump : μ → String)
    (base_path : String) (dv : List (String × PyVal μ)) (s : FsM) :
    isFileExistsErr (_write_dv pfxOf yamlDump base_path dv s) = false := by
  rw [_write_dv]
  simp only [guardMkdir_eq, except_bind_ok]
  rcases h1 : getItem dv "material" with e1 | v1
  · simp only [except_bind_err]
    rw [getItem_error_keyError dv "material" e1 h1]
    rfl
  · simp only [except_bind_ok]
    rcases hm : asMaterial v1 with em | m
    · simp only [except_bind_err]
      rw [asMaterial_error_typeError v1 em hm]
      rfl
    · simp only [except_bind_ok, guardMkdir_eq]
      rcases h2 : getItem dv "scf" with e2 | v2
      · simp only [except_bind_err]
        rw [getItem_error_keyError dv "scf" e2 h2]
        rfl
      · simp only [except_bind_ok]
        rcases ht2 : asText v2 with et2 | t2
        · simp only [except_bind_err]
          rw [asText_error_typeError v2 et2 ht2]
          rfl
        · simp only [except_bind_ok]
          rcases h3 : getItem dv "nscf" with e3 | v3
          · simp only [except_bind_err]
            rw [getItem_error_keyError dv "nscf" e3 h3]
            rfl
          · simp only [except_bind_ok]
            rcases ht3 : asText v3 with et3 | t3
            · simp only [except_bind_err]
              rw [asText_error_typeError v3 et3 ht3]
              rfl
            · simp only [except_bind_ok]
              rcases h4 : getItem dv "bands" with e4 | v4
              · simp only [except_bind_err]
                rw [getItem_error_keyError dv "bands" e4 h4]
                rfl
              · simp only [except_bind_ok]
                rcases ht4 : asText v4 with et4 | t4
                · simp only [except_bind_err]
                  rw [asText_error_typeError v4 et4 ht4]
                  rfl
                · simp only [except_bind_ok]
                  rcases h5 : getItem dv "bands_post" with e5 | v5
                  · simp only [except_bind_err]
                    rw [getItem_error_keyError dv "bands_post" e5 h5]
                    rfl
                  · simp only [except_bind_ok]
                    rcases ht5 : asText v5 with et5 | t5
                    · simp only [except_bind_err]
                      rw [asText_error_typeError v5 et5 ht5]
                      rfl
                    · simp only [except_bind_ok]
                      rfl

/-- C6: `os.mkdir` in this model raises `FileExistsError` exactly on an
already-existing path, and every mkdir performed by `write_dgrid` (via
`_write_dv`) is guarded by an `os.path.exists` check, so a `write_dgrid`
run never aborts with `FileExistsError`, whatever directories and files
already exist. -/
theorem write_dgrid_mkdir_guarded {μ : Type} (pfxOf : μ → String) (yamlDump : μ → String)
    (base_path : String) (dgrid : List ((ℚ × ℚ) × List (String × PyVal μ))) :
    (∀ (s : FsM) (p : String), isFileExistsErr (mkdir s p) = s.1.pathExists p)
    ∧ ∀ s : FsM,
        isFileExistsErr (write_dgrid pfxOf yamlDump base_path dgrid s) = false := by
  constructor
  · intro s p
    rw [mkdir]
    split
    · simp [isFileExistsErr, *]
    · simp [isFileExistsErr]
      simp at *
      assumption
  · induction dgrid with
    | nil => intro s; rfl
    | cons kv l ih =>
      intro s
      rw [write_dgrid, List.foldlM_cons]
      rcases h : _write_dv pfxOf yamlDump base_path kv.2 s with e | s1
      · simp only [except_bind_err]
        have := write_dv_no_fileExists pfxOf yamlDump base_path kv.2 s
        rw [h] at this
        exact this
      · simp only [except_bind_ok]
        have := ih s1
        rw [write_dgrid] at this
        exact this

/-! ### plot_ds.py: `energies_relative_to` (lines 68-83) -/

/-- Python exceptions `energies_relative_to` can raise: the explicit
`ValueError` and the `IndexError` of `energies[base_d_index]`. -/
inductive PyErr where
  | valueError (msg : String)
  | indexError
deriving DecidableEq

/-- The loop of plot_ds.py lines 69-72: enumerate `dps` and overwrite
`base_d_index` at every entry whose `d` equals `(0.0, 0.0)` (no break), so
the final value is the last matching index, or `None`. -/
def lastBaseIndex (dps : List ((ℚ × ℚ) × String)) : Option Nat :=
  List.foldl
    (fun acc p => if p.2.1 = ((0 : ℚ), (0 : ℚ)) then some p.1 else acc)
    none dps.enum

/-- Model of `energies_relative_to` (plot_ds.py lines 68-83).  The `base_d`
argument is accepted and never read, exactly as in the source. -/
def energies_relative_to (energies : List ℚ) (dps : List ((ℚ × ℚ) × String))
    (base_d : ℚ × ℚ) : Except PyErr (List ℚ) :=
  match lastBaseIndex dps with
  | none => .error (.valueError "d = (0, 0) not found")
  | some base_d_index =>
    match energies[base_d_index]? with
    | none => .error .indexError
    | some base_energy => .ok (energies.map (fun E => (E - base_energy) * 1000))

/-- Did the run raise `ValueError`? -/
def isValueError {α : Type} : Except PyErr α → Bool
  | .error (.valueError _) => true
  | _ => false

theorem lastBaseIndex_foldl_none (l : List (Nat × ((ℚ × ℚ) × String))) :
    ∀ acc : Option Nat,
      (List.foldl (fun acc p => if p.2.1 = ((0 : ℚ), (0 : ℚ)) then some p.1 else acc)
          acc l = none)
        ↔ (acc = none ∧ ∀ p ∈ l, p.2.1 ≠ ((0 : ℚ), (0 : ℚ))) := by
  induction l with
  | nil => intro acc; simp
  | cons p l ih =>
    intro acc
    rw [List.foldl_cons]
    by_cases hp : p.2.1 = ((0 : ℚ), (0 : ℚ))
    · rw [if_pos hp, ih]
      constructor
      · rintro ⟨h1, -⟩
        exact Option.noConfusion h1
      · rintro ⟨-, h2⟩
        exact absurd hp (h2 p (List.mem_cons_self p l))
    · rw [if_neg hp, ih]
      constructor
      · rintro ⟨ha, hl⟩
        refine ⟨ha, fun q hq => ?_⟩
        rcases List.mem_cons.mp hq with rfl | hq'
        · exact hp
        · exact hl q hq'
      · rintro ⟨ha, hl⟩
        exact ⟨ha, fun q hq => hl q (List.mem_cons_of_mem p hq)⟩

theorem lastBaseIndex_none_iff (dps : List ((ℚ × ℚ) × String)) :
    lastBaseIndex dps = none ↔ ∀ dp ∈ dps, dp.1 ≠ ((0 : ℚ), (0 : ℚ)) := by
  rw [lastBaseIndex, lastBaseIndex_foldl_none]
  constructor
  · rintro ⟨-, h⟩
    intro dp hdp
    obtain ⟨i, hi, hget⟩ := List.mem_iff_getElem.mp hdp
    have hmem : (i, dp) ∈ dps.enum := by
      rw [List.mem_iff_getElem]
      exact ⟨i, by simpa using hi, by rw [List.getElem_enum, hget]⟩
    exact h (i, dp) hmem
  · intro h
    refine ⟨rfl, fun p hp => h p.2 ?_⟩
    have hm : p.2 ∈ dps.enum.map Prod.snd := List.mem_map_of_mem Prod.snd hp
    rwa [List.enum_map_snd] at hm

theorem lastBaseIndex_append_single (ds : List ((ℚ × ℚ) × String)) (d : (ℚ × ℚ) × String) :
    lastBaseIndex (ds ++ [d]) =
      if d.1 = ((0 : ℚ), (0 : ℚ)) then some ds.length else lastBaseIndex ds := by
  rw [lastBaseIndex, lastBaseIndex, List.enum_append, List.foldl_append]
  rfl

theorem lastBaseIndex_is_last (dps : List ((ℚ × ℚ) × String)) :
    ∀ i : Nat, lastBaseIndex dps = some i →
      (∃ dp, dps[i]? = some dp ∧ dp.1 = ((0 : ℚ), (0 : ℚ)))
      ∧ ∀ (j : Nat) (dp' : (ℚ × ℚ) × String),
          i < j → dps[j]? = some dp' → dp'.1 ≠ ((0 : ℚ), (0 : ℚ)) := by
  induction dps using List.reverseRecOn with
  | nil => intro i h; simp [lastBaseIndex] at h
  | append_singleton ds d ih =>
    intro i h
    rw [lastBaseIndex_append_single] at h
    by_cases hd : d.1 = ((0 : ℚ), (0 : ℚ))
    · rw [if_pos hd] at h
      injection h with h
      subst h
      constructor
      · refine ⟨d, ?_, hd⟩
        rw [List.getElem?_append_right (Nat.le_refl _)]
        simp
      · intro j dp' hij hj
        exfalso
        have hlen : j < ds.length + 1 := by
          have := List.getElem?_eq_some_iff.mp hj
          simpa using this.1
        omega
    · rw [if_neg hd] at h
      obtain ⟨⟨dp, hdp, hdp0⟩, hlater⟩ := ih i h
      have hkept : i < ds.length := by
        have := List.getElem?_eq_some_iff.mp hdp
        exact this.1
      constructor
      · refine ⟨dp, ?_, hdp0⟩
        rw [List.getElem?_append_left hkept]
        exact hdp
      · intro j dp' hij hj
        rcases Nat.lt_or_ge j ds.length with hjl | hjr
        · rw [List.getElem?_append_left hjl] at hj
          exact hlater j dp' hij hj
        · have hlen : j < ds.length + 1 := by
            have := List.getElem?_eq_some_iff.mp hj
            simpa using this.1
          have hje : j = ds.length := by omega
          subst hje
          rw [List.getElem?_append_right (Nat.le_refl _)] at hj
          simp at hj
          rw [← hj]
          exact hd

/-- C7: `energies_relative_to` ignores `base_d` (any value gives the same
result as `(0.0, 0.0)`); it raises `ValueError` exactly when no entry of
`dps` has `d = (0.0, 0.0)`; and when the last matching index is in range
it returns `[(E - E_base) * 1000 | E in energies]`, where `E_base` is the
energy at the last index of `dps` whose `d` is `(0.0, 0.0)` (the final
conjunct shows `lastBaseIndex` does select the last match). -/
theorem energies_relative_to_spec (energies : List ℚ) (dps : List ((ℚ × ℚ) × String))
    (base_d : ℚ × ℚ) :
    (energies_relative_to energies dps base_d =
      energies_relative_to energies dps ((0 : ℚ), (0 : ℚ)))
    ∧ (isValueError (energies_relative_to energies dps base_d) =
        decide (∀ dp ∈ dps, dp.1 ≠ ((0 : ℚ), (0 : ℚ))))
    ∧ (∀ (i : Nat) (E_base : ℚ), lastBaseIndex dps = some i →
        energies[i]? = some E_base →
        energies_relative_to energies dps base_d =
          .ok (energies.map (fun E => (E - E_base) * 1000)))
    ∧ (∀ i : Nat, lastBaseIndex dps = some i →
        (∃ dp, dps[i]? = some dp ∧ dp.1 = ((0 : ℚ), (0 : ℚ)))
        ∧ ∀ (j : Nat) (dp' : (ℚ × ℚ) × String),
            i < j → dps[j]? = some dp' → dp'.1 ≠ ((0 : ℚ), (0 : ℚ))) := by
  refine ⟨rfl, ?_, ?_, lastBaseIndex_is_last dps⟩
  · simp only [energies_relative_to]
    rcases h : lastBaseIndex dps with _ | i
    · have hall := (lastBaseIndex_none_iff dps).mp h
      rw [decide_eq_true hall]
      rfl
    · have hne : ¬ ∀ dp ∈ dps, dp.1 ≠ ((0 : ℚ), (0 : ℚ)) := by
        intro hall
        rw [← lastBaseIndex_none_iff] at hall
        rw [h] at hall
        cases hall
      rcases hg : energies[i]? with _ | E <;> rw [decide_eq_false hne] <;>
        simp [isValueError, hg]
  · intro i E_base hi hE
    simp only [energies_relative_to, hi, hE]

theorem energies_relative_to_spec_witness :
    (lastBaseIndex [(((0 : ℚ), (0 : ℚ)), "a"), (((0 : ℚ), (0 : ℚ)), "b")] = some 1
      ∧ ([(3 : ℚ), (5 : ℚ)])[1]? = some (5 : ℚ))
    ∧ energies_relative_to [(3 : ℚ), (5 : ℚ)]
        [(((0 : ℚ), (0 : ℚ)), "a"), (((0 : ℚ), (0 : ℚ)), "b")] ((1 : ℚ), (2 : ℚ)) =
        .ok ([(3 : ℚ), (5 : ℚ)].map (fun E => (E - (5 : ℚ)) * 1000)) :=
  ⟨⟨by simp [lastBaseIndex, List.enum], rfl⟩,
   (energies_relative_to_spec [(3 : ℚ), (5 : ℚ)]
      [(((0 : ℚ), (0 : ℚ)), "a"), (((0 : ℚ), (0 : ℚ)), "b")] ((1 : ℚ), (2 : ℚ))).2.2.1
     1 (5 : ℚ) (by simp [lastBaseIndex, List.enum]) rfl⟩

/-! ### plot_ds.py: `system_all_gaps` and `find_gaps` (lines 226-272) -/

/-- Model of `system_all_gaps` (plot_ds.py lines 226-239).  `fermi_from_scf`,
`D_from_scf` (opaque result type `ρ`) and `HrFindGaps` are opaque
parameters, and `rOf` abstracts the numpy computation `R = 2π · D⁻¹`;
`nc` is fixed to `1` as in the source. -/
def system_all_gaps {ρ : Type}
    (fermi_from_scf : String → ℚ) (d_from_scf : String → ρ) (rOf : ρ → ρ)
    (hrFindGaps : ℚ → ℚ → Nat → Nat → Nat → Nat → ρ → String →
      List (ℚ × ℚ) × List ℚ × List ℚ)
    (work pfx : String) (E_below_fermi E_above_fermi : ℚ)
    (num_dos na nb : Nat) : List (ℚ × ℚ) × List ℚ × List ℚ :=
  let HrPath := joinPath (joinPath (joinPath work pfx) "wannier") (pfx ++ "_hr.dat")
  let scf_path := joinPath (joinPath (joinPath work pfx) "wannier") "scf.out"
  let E_F := fermi_from_scf scf_path
  let minE := E_F - E_below_fermi
  let maxE := E_F + E_above_fermi
  let R := rOf (d_from_scf scf_path)
  let nc := 1
  hrFindGaps minE maxE num_dos na nb nc R HrPath

/-- Model of `multiprocessing.Pool.starmap`: it applies the function to every argument
tuple of the list and returns the results in the order of the argument
list (documented Python semantics, independent of worker scheduling); in
the embedding it is therefore `List.map`. -/
def starmap {α β : Type} (f : α → β) (args : List α) : List β := args.map f

/-- The constant `gap_in_band_tolerance` (plot_ds.py line 259): 10 meV. -/
def gap_in_band_tolerance : ℚ := 1 / 100

/-- The `for gap_interval in this_gaps: ... break` loop of plot_ds.py
lines 256-264: the first interval (in list order) containing `E_F` or
whose endpoint is within the tolerance of `E_F`. -/
def firstGapAtFermi (E_F : ℚ) : List (ℚ × ℚ) → Option (ℚ × ℚ)
  | [] => none
  | g :: rest =>
    if (E_F ≥ g.1 ∧ E_F ≤ g.2) ∨ |g.1 - E_F| < gap_in_band_tolerance
        ∨ |E_F - g.2| < gap_in_band_tolerance then some g
    else firstGapAtFermi E_F rest

/-- Model of `find_gaps` (plot_ds.py lines 241-272): build one argument tuple per
displacement sample, `Pool.starmap` the gap finder over them, then walk
`enumerate(dps)` appending the width of the gap at the Fermi energy (or
`0.0`). -/
def find_gaps {ρ : Type}
    (fermi_from_scf : String → ℚ) (d_from_scf : String → ρ) (rOf : ρ → ρ)
    (hrFindGaps : ℚ → ℚ → Nat → Nat → Nat → Nat → ρ → String →
      List (ℚ × ℚ) × List ℚ × List ℚ)
    (work : String) (dps : List ((ℚ × ℚ) × String))
    (E_below_fermi E_above_fermi : ℚ) (num_dos na nb : Nat) : List ℚ :=
  let gap_call_args := dps.map (fun dp =>
    (work, dp.2, E_below_fermi, E_above_fermi, num_dos, na, nb))
  let all_gaps_output := starmap (fun a =>
    system_all_gaps fermi_from_scf d_from_scf rOf hrFindGaps
      a.1 a.2.1 a.2.2.1 a.2.2.2.1 a.2.2.2.2.1 a.2.2.2.2.2.1 a.2.2.2.2.2.2) gap_call_args
  dps.enum.foldl (fun gaps p =>
    let this_gaps := (all_gaps_output.getD p.1 ([], [], [])).1
    let scf_path := joinPath (joinPath (joinPath work p.2.2) "wannier") "scf.out"
    let E_F := fermi_from_scf scf_path
    match firstGapAtFermi E_F this_gaps with
    | some gap_at_fermi => gaps ++ [gap_at_fermi.2 - gap_at_fermi.1]
    | none => gaps ++ [(0 : ℚ)]) []

/-- The gap value of a single displacement sample, computed sequentially
from that sample's files and the shared parameters only. -/
def sample_gap {ρ : Type}
    (fermi_from_scf : String → ℚ) (d_from_scf : String → ρ) (rOf : ρ → ρ)
    (hrFindGaps : ℚ → ℚ → Nat → Nat → Nat → Nat → ρ → String →
      List (ℚ × ℚ) × List ℚ × List ℚ)
    (work : String) (dp : (ℚ × ℚ) × String)
    (E_below_fermi E_above_fermi : ℚ) (num_dos na nb : Nat) : ℚ :=
  let this_gaps := (system_all_gaps fermi_from_scf d_from_scf rOf hrFindGaps work dp.2
      E_below_fermi E_above_fermi num_dos na nb).1
  let E_F := fermi_from_scf (joinPath (joinPath (joinPath work dp.2) "wannier") "scf.out")
  match firstGapAtFermi E_F this_gaps with
  | some g => g.2 - g.1
  | none => 0

theorem foldl_append_eq_map {α β : Type} (g : α → β) :
    ∀ (l : List α) (acc : List β),
      l.foldl (fun acc x => acc ++ [g x]) acc = acc ++ l.map g := by
  intro l
  induction l with
  | nil => intro acc; simp
  | cons x l ih =>
    intro acc
    rw [List.foldl_cons, ih, List.map_cons]
    simp

theorem find_gaps_eq_map {ρ : Type}
    (fermi_from_scf : String → ℚ) (d_from_scf : String → ρ) (rOf : ρ → ρ)
    (hrFindGaps : ℚ → ℚ → Nat → Nat → Nat → Nat → ρ → String →
      List (ℚ × ℚ) × List ℚ × List ℚ)
    (work : String) (dps : List ((ℚ × ℚ) × String))
    (E_below_fermi E_above_fermi : ℚ) (num_dos na nb : Nat) :
    find_gaps fermi_from_scf d_from_scf rOf hrFindGaps work dps
        E_below_fermi E_above_fermi num_dos na nb =
      dps.map (fun dp =>
        sample_gap fermi_from_scf d_from_scf rOf hrFindGaps work dp
          E_below_fermi E_above_fermi num_dos na nb) := by
  rw [find_gaps]
  simp only [starmap, List.map_map]
  have hbody :
      (fun (gaps : List ℚ) (p : Nat × ((ℚ × ℚ) × String)) =>
        let this_gaps :=
          ((dps.map ((fun a =>
              system_all_gaps fermi_from_scf d_from_scf rOf hrFindGaps
                a.1 a.2.1 a.2.2.1 a.2.2.2.1 a.2.2.2.2.1 a.2.2.2.2.2.1 a.2.2.2.2.2.2) ∘
            (fun dp => (work, dp.2, E_below_fermi, E_above_fermi, num_dos, na, nb)))).getD
              p.1 ([], [], [])).1
        let scf_path := joinPath (joinPath (joinPath work p.2.2) "wannier") "scf.out"
        let E_F := fermi_from_scf scf_path
        match firstGapAtFermi E_F this_gaps with
        | some gap_at_fermi => gaps ++ [gap_at_fermi.2 - gap_at_fermi.1]
        | none => gaps ++ [(0 : ℚ)]) =
      (fun gaps p => gaps ++
        [(fun (p : Nat × ((ℚ × ℚ) × String)) =>
          let this_gaps :=
            ((dps.map ((fun a =>
                system_all_gaps fermi_from_scf d_from_scf rOf hrFindGaps
                  a.1 a.2.1 a.2.2.1 a.2.2.2.1 a.2.2.2.2.1 a.2.2.2.2.2.1 a.2.2.2.2.2.2) ∘
              (fun dp => (work, dp.2, E_below_fermi, E_above_fermi, num_dos, na, nb)))).getD
                p.1 ([], [], [])).1
          let E_F := fermi_from_scf
            (joinPath (joinPath (joinPath work p.2.2) "wannier") "scf.out")
          match firstGapAtFermi E_F this_gaps with
          | some g => g.2 - g.1
          | none => (0 : ℚ)) p]) := by
    funext gaps p
    cases hF : firstGapAtFermi
        (fermi_from_scf (joinPath (joinPath (joinPath work p.2.2) "wannier") "scf.out"))
        ((dps.map ((fun a =>
            system_all_gaps fermi_from_scf d_from_scf rOf hrFindGaps
              a.1 a.2.1 a.2.2.1 a.2.2.2.1 a.2.2.2.2.1 a.2.2.2.2.2.1 a.2.2.2.2.2.2) ∘
          (fun dp => (work, dp.2, E_below_fermi, E_above_fermi, num_dos, na, nb)))).getD
            p.1 ([], [], [])).1 <;>
      simp only [hF]
  rw [hbody, foldl_append_eq_map, List.nil_append]
  refine Eq.trans
    (@List.map_congr_left _ dps.enum _ _
      ((fun q : (ℚ × ℚ) × String =>
        sample_gap fermi_from_scf d_from_scf rOf hrFindGaps work q
          E_below_fermi E_above_fermi num_dos na nb) ∘ Prod.snd)
      (fun p hp => ?_)) ?_
  · have hget : dps[p.1]? = some p.2 := List.mem_enum_iff_getElem?.mp hp
    have hmap : (dps.map ((fun a =>
        system_all_gaps fermi_from_scf d_from_scf rOf hrFindGaps
          a.1 a.2.1 a.2.2.1 a.2.2.2.1 a.2.2.2.2.1 a.2.2.2.2.2.1 a.2.2.2.2.2.2) ∘
      (fun dp => (work, dp.2, E_below_fermi, E_above_fermi, num_dos, na, nb)))).getD
        p.1 ([], [], []) =
        system_all_gaps fermi_from_scf d_from_scf rOf hrFindGaps work p.2.2
          E_below_fermi E_above_fermi num_dos na nb := by
      rw [List.getD_eq_getElem?_getD, List.getElem?_map, hget]
      rfl
    simp only [Function.comp_apply, sample_gap, hmap]
  · rw [← List.map_map, List.enum_map_snd]

/-- C2: `find_gaps` builds exactly one argument tuple per displacement
sample and `starmap`s `system_all_gaps` over them (the pool dispatch,
which by Python's documented `Pool.starmap` semantics returns results in
argument order and is modelled as `List.map`); its result equals the
sequential map of the single-sample computation `sample_gap` over `dps`,
has the same length as `dps`, and its `i`-th entry is determined by the
`i`-th sample together with the shared parameters alone. -/
theorem find_gaps_pool_refines_seq {ρ : Type}
    (fermi_from_scf : String → ℚ) (d_from_scf : String → ρ) (rOf : ρ → ρ)
    (hrFindGaps : ℚ → ℚ → Nat → Nat → Nat → Nat → ρ → String →
      List (ℚ × ℚ) × List ℚ × List ℚ)
    (work : String) (dps : List ((ℚ × ℚ) × String))
    (E_below_fermi E_above_fermi : ℚ) (num_dos na nb : Nat) :
    find_gaps fermi_from_scf d_from_scf rOf hrFindGaps work dps
        E_below_fermi E_above_fermi num_dos na nb =
      dps.map (fun dp =>
        sample_gap fermi_from_scf d_from_scf rOf hrFindGaps work dp
          E_below_fermi E_above_fermi num_dos na nb)
    ∧ (find_gaps fermi_from_scf d_from_scf rOf hrFindGaps work dps
        E_below_fermi E_above_fermi num_dos na nb).length = dps.length
    ∧ ∀ i : Nat,
        (find_gaps fermi_from_scf d_from_scf rOf hrFindGaps work dps
          E_below_fermi E_above_fermi num_dos na nb)[i]? =
          dps[i]?.map (fun dp =>
            sample_gap fermi_from_scf d_from_scf rOf hrFindGaps work dp
              E_below_fermi E_above_fermi num_dos na nb) := by
  have h := find_gaps_eq_map fermi_from_scf d_from_scf rOf hrFindGaps work dps
    E_below_fermi E_above_fermi num_dos na nb
  refine ⟨h, ?_, ?_⟩
  · rw [h, List.length_map]
  · intro i
    rw [h, List.getElem?_map]

theorem firstGapAtFermi_eq_find? (E_F : ℚ) (gs : List (ℚ × ℚ)) :
    firstGapAtFermi E_F gs = gs.find? (fun g =>
      decide ((E_F ≥ g.1 ∧ E_F ≤ g.2) ∨ |g.1 - E_F| < gap_in_band_tolerance
        ∨ |E_F - g.2| < gap_in_band_tolerance)) := by
  induction gs with
  | nil => rfl
  | cons g rest ih =>
    rw [firstGapAtFermi, List.find?_cons]
    by_cases h : (E_F ≥ g.1 ∧ E_F ≤ g.2) ∨ |g.1 - E_F| < gap_in_band_tolerance
        ∨ |E_F - g.2| < gap_in_band_tolerance
    · rw [if_pos h, decide_eq_true h]
    · rw [if_neg h, decide_eq_false h, ih]

/-- C3: for every sample, with gap intervals from the gap finder and `E_F`
parsed from that sample's `scf.out`, `find_gaps` appends the width
`gap.2 - gap.1` of the first interval in list order satisfying
`E_F ≥ gap.1 ∧ E_F ≤ gap.2`, or `|gap.1 - E_F| < 1/100`, or
`|E_F - gap.2| < 1/100`, and appends exactly `0.0` when no interval
qualifies. -/
theorem find_gaps_first_qualifying_width {ρ : Type}
    (fermi_from_scf : String → ℚ) (d_from_scf : String → ρ) (rOf : ρ → ρ)
    (hrFindGaps : ℚ → ℚ → Nat → Nat → Nat → Nat → ρ → String →
      List (ℚ × ℚ) × List ℚ × List ℚ)
    (work : String) (dps : List ((ℚ × ℚ) × String))
    (E_below_fermi E_above_fermi : ℚ) (num_dos na nb : Nat) :
    find_gaps fermi_from_scf d_from_scf rOf hrFindGaps work dps
        E_below_fermi E_above_fermi num_dos na nb =
      dps.map (fun dp =>
        let E_F := fermi_from_scf
          (joinPath (joinPath (joinPath work dp.2) "wannier") "scf.out")
        match (system_all_gaps fermi_from_scf d_from_scf rOf hrFindGaps work dp.2
            E_below_fermi E_above_fermi num_dos na nb).1.find? (fun g =>
              decide ((E_F ≥ g.1 ∧ E_F ≤ g.2) ∨ |g.1 - E_F| < 1 / 100
                ∨ |E_F - g.2| < 1 / 100)) with
        | some g => g.2 - g.1
        | none => (0 : ℚ)) := by
  rw [find_gaps_eq_map]
  refine List.map_congr_left ?_
  intro dp _
  simp only [sample_gap, firstGapAtFermi_eq_find?, gap_in_band_tolerance]

/-! ### plot_ds.py: `sorted_d_group` (lines 49-56)

Python's `sorted` is a stable sort, modelled by `List.mergeSort` (which is
stable).  The source sorts the zipped pairs by `d[1]`, then by `d[0]`. -/

/-- Model of `sorted_d_group` (plot_ds.py lines 49-56). -/
def sorted_d_group {V : Type} (ds : List (ℚ × ℚ)) (values : List V) :
    List ((ℚ × ℚ) × V) :=
  let dvs := ds.zip values
  let dvs1 := dvs.mergeSort (fun dp dq => decide (dp.1.2 ≤ dq.1.2))
  dvs1.mergeSort (fun dp dq => decide (dp.1.1 ≤ dq.1.1))

/-- Two sorted lists that are permutations of each other, with the order
antisymmetric on their members, are equal. -/
theorem eq_of_perm_of_pairwise {α : Type} {R : α → α → Prop} :
    ∀ {l₁ l₂ : List α}, l₁.Perm l₂ → l₁.Pairwise R → l₂.Pairwise R →
      (∀ a ∈ l₁, ∀ b ∈ l₁, R a b → R b a → a = b) → l₁ = l₂ := by
  intro l₁
  induction l₁ with
  | nil =>
    intro l₂ hp _ _ _
    exact (hp.symm.eq_nil).symm
  | cons a t ih =>
    intro l₂ hp hp₁ hp₂ hanti
    cases l₂ with
    | nil => exact absurd hp.symm (by simp)
    | cons b t₂ =>
      have hab : a = b := by
        by_contra hne
        have hbmem : b ∈ a :: t := hp.mem_iff.mpr (List.mem_cons_self b t₂)
        have hamem : a ∈ b :: t₂ := hp.mem_iff.mp (List.mem_cons_self a t)
        have hbt : b ∈ t := by
          rcases List.mem_cons.mp hbmem with h | h
          · exact absurd h.symm hne
          · exact h
        have hat : a ∈ t₂ := by
          rcases List.mem_cons.mp hamem with h | h
          · exact absurd h hne
          · exact h
        have hRab : R a b := (List.pairwise_cons.mp hp₁).1 b hbt
        have hRba : R b a := (List.pairwise_cons.mp hp₂).1 a hat
        exact hne (hanti a (List.mem_cons_self a t) b hbmem hRab hRba)
      subst hab
      have hpt : t.Perm t₂ := hp.cons_inv
      have htail := ih hpt (List.pairwise_cons.mp hp₁).2 (List.pairwise_cons.mp hp₂).2
        (fun x hx y hy => hanti x (List.mem_cons_of_mem a hx) y (List.mem_cons_of_mem a hy))
      rw [htail]

/-- The two elements at positions `i < j` of a list form a sublist. -/
theorem pair_sublist_of_indices {α : Type} (l : List α) (i j : Nat)
    (hi : i < l.length) (hj : j < l.length) (hij : i < j) :
    ([l.get ⟨i, hi⟩, l.get ⟨j, hj⟩]).Sublist l := by
  have h := @List.map_get_sublist _ l [⟨i, hi⟩, ⟨j, hj⟩]
    (List.pairwise_pair.mpr hij)
  simpa using h

/-- In a duplicate-free list, a two-element sublist can only appear in
index order. -/
theorem pair_sublist_index_order {α : Type} (l : List α) (hnd : l.Nodup)
    (x y : α) (hsub : ([x, y]).Sublist l) (i j : Nat) (hi : i < l.length)
    (hj : j < l.length) (hx : l.get ⟨i, hi⟩ = x) (hy : l.get ⟨j, hj⟩ = y) :
    i < j := by
  obtain ⟨is, his, hpw⟩ := List.sublist_eq_map_get hsub
  match is, his with
  | [u, v], his =>
    have hu : l.get u = x := (List.cons.injEq _ _ _ _ ▸ his).1.symm
    have hv : l.get v = y := by
      have h2 := (List.cons.injEq _ _ _ _ ▸ his).2
      exact ((List.cons.injEq _ _ _ _ ▸ h2).1).symm
    have huv' : u < v := List.pairwise_pair.mp hpw
    have huv : (u : Nat) < (v : Nat) := huv'
    have hui : (u : Nat) = i := by
      have : l.get u = l.get ⟨i, hi⟩ := by rw [hu, hx]
      have := (hnd.getElem_inj_iff).mp (by simpa [List.get_eq_getElem] using this)
      exact this
    have hvj : (v : Nat) = j := by
      have : l.get v = l.get ⟨j, hj⟩ := by rw [hv, hy]
      have := (hnd.getElem_inj_iff).mp (by simpa [List.get_eq_getElem] using this)
      exact this
    omega

/-- The comparison `sorted(key=lambda dp: dp[0][1])` uses, abstracted over
the key. -/
def leBfn {α : Type} (kB : α → ℚ) : α → α → Bool := fun x y => decide (kB x ≤ kB y)

/-- The comparison `sorted(key=lambda dp: dp[0][0])` uses, abstracted over
the key. -/
def leAfn {α : Type} (kA : α → ℚ) : α → α → Bool := fun x y => decide (kA x ≤ kA y)

/-- Non-strict lexicographic comparison on the pair of keys, `kB`
ascending faster than `kA`. -/
def leLexFn {α : Type} (kA kB : α → ℚ) : α → α → Bool :=
  fun x y => decide (kA x < kA y ∨ (kA x = kA y ∧ kB x ≤ kB y))

/-- The comparison `leAfn` lifted to enumerated pairs via the second component. -/
def rAfn {α : Type} (kA : α → ℚ) : Nat × α → Nat × α → Bool :=
  fun x y => decide (kA x.2 ≤ kA y.2)

theorem leBfn_trans {α : Type} (kB : α → ℚ) (a b c : α) :
    leBfn kB a b = true → leBfn kB b c = true → leBfn kB a c = true := by
  simp only [leBfn, decide_eq_true_eq]
  exact le_trans

theorem leBfn_total {α : Type} (kB : α → ℚ) (a b : α) :
    (leBfn kB a b || leBfn kB b a) = true := by
  simp only [leBfn, Bool.or_eq_true, decide_eq_true_eq]
  exact le_total _ _

theorem rAfn_trans {α : Type} (kA : α → ℚ) (a b c : Nat × α) :
    rAfn kA a b = true → rAfn kA b c = true → rAfn kA a c = true := by
  simp only [rAfn, decide_eq_true_eq]
  exact le_trans

theorem rAfn_total {α : Type} (kA : α → ℚ) (a b : Nat × α) :
    (rAfn kA a b || rAfn kA b a) = true := by
  simp only [rAfn, Bool.or_eq_true, decide_eq_true_eq]
  exact le_total _ _

theorem leLexFn_trans {α : Type} (kA kB : α → ℚ) (a b c : α) :
    leLexFn kA kB a b = true → leLexFn kA kB b c = true → leLexFn kA kB a c = true := by
  simp only [leLexFn, decide_eq_true_eq]
  rintro (h | ⟨he, hb⟩) (h' | ⟨he', hb'⟩)
  · exact Or.inl (h.trans h')
  · exact Or.inl (he' ▸ h)
  · exact Or.inl (he ▸ h')
  · exact Or.inr ⟨he.trans he', hb.trans hb'⟩

theorem leLexFn_total {α : Type} (kA kB : α → ℚ) (a b : α) :
    (leLexFn kA kB a b || leLexFn kA kB b a) = true := by
  simp only [leLexFn, Bool.or_eq_true, decide_eq_true_eq]
  rcases lt_trichotomy (kA a) (kA b) with h | h | h
  · exact Or.inl (Or.inl h)
  · rcases le_total (kB a) (kB b) with hb | hb
    · exact Or.inl (Or.inr ⟨h, hb⟩)
    · exact Or.inr (Or.inr ⟨h.symm, hb⟩)
  · exact Or.inr (Or.inl h)

theorem enumLE_lex_of_lt {α : Type} (kA kB : α → ℚ) (x y : Nat × α)
    (h : kA x.2 < kA y.2) :
    List.enumLE (leLexFn kA kB) x y = true := by
  have h1 : leLexFn kA kB x.2 y.2 = true := by
    simp only [leLexFn, decide_eq_true_eq]
    exact Or.inl h
  have h2 : leLexFn kA kB y.2 x.2 = false := by
    simp only [leLexFn, decide_eq_false_iff_not]
    rintro (h' | ⟨he, -⟩)
    · exact absurd h (lt_asymm h')
    · exact absurd (he ▸ h) (lt_irrefl _)
  simp [List.enumLE, h1, h2]

theorem enumLE_lex_of_tie {α : Type} (kA kB : α → ℚ) (x y : Nat × α)
    (he : kA x.2 = kA y.2)
    (h : List.enumLE (leBfn kB) x y = true) :
    List.enumLE (leLexFn kA kB) x y = true := by
  have hlt2 : ¬ kA y.2 < kA x.2 := by rw [he]; exact lt_irrefl _
  by_cases hxy : kB x.2 ≤ kB y.2
  · by_cases hyx : kB y.2 ≤ kB x.2
    · have hidx : x.1 ≤ y.1 := by
        simpa [List.enumLE, leBfn, hxy, hyx] using h
      simp [List.enumLE, leLexFn, hxy, hyx, he, hlt2, hidx]
    · simp [List.enumLE, leLexFn, hxy, hyx, he, hlt2]
  · simp [List.enumLE, leBfn, hxy] at h

theorem enumLE_lex_antisymm_fst {α : Type} (kA kB : α → ℚ) (x y : Nat × α)
    (h1 : List.enumLE (leLexFn kA kB) x y = true)
    (h2 : List.enumLE (leLexFn kA kB) y x = true) : x.1 = y.1 := by
  by_cases hxy : kA x.2 < kA y.2 ∨ (kA x.2 = kA y.2 ∧ kB x.2 ≤ kB y.2)
  · by_cases hyx : kA y.2 < kA x.2 ∨ (kA y.2 = kA x.2 ∧ kB y.2 ≤ kB x.2)
    · have hi1 : x.1 ≤ y.1 := by
        simpa [List.enumLE, leLexFn, hxy, hyx] using h1
      have hi2 : y.1 ≤ x.1 := by
        simpa [List.enumLE, leLexFn, hxy, hyx] using h2
      omega
    · simp [List.enumLE, leLexFn, hyx] at h2
  · simp [List.enumLE, leLexFn, hxy] at h1

/-- Composing the two stable sorts of `sorted_d_group` — first by the `kB`
key, then by the `kA` key — is the stable sort by the lexicographic order
on `(kA, kB)`. -/
theorem mergeSort_mergeSort_lex {α : Type} (kA kB : α → ℚ) (l : List α) :
    (l.mergeSort (leBfn kB)).mergeSort (leAfn kA) = l.mergeSort (leLexFn kA kB) := by
  have step1 : l.mergeSort (leBfn kB) =
      List.map (fun x => x.2) (l.enum.mergeSort (List.enumLE (leBfn kB))) :=
    (List.mergeSort_enum).symm
  have step2 :
      (List.map (fun x => x.2)
          (l.enum.mergeSort (List.enumLE (leBfn kB)))).mergeSort (leAfn kA) =
      List.map (fun x => x.2)
        ((l.enum.mergeSort (List.enumLE (leBfn kB))).mergeSort (rAfn kA)) :=
    (@List.map_mergeSort (Nat × α) α (rAfn kA) (leAfn kA) (fun x => x.2)
      (l.enum.mergeSort (List.enumLE (leBfn kB))) (fun a _ b _ => rfl)).symm
  have step3 : l.mergeSort (leLexFn kA kB) =
      List.map (fun x => x.2) (l.enum.mergeSort (List.enumLE (leLexFn kA kB))) :=
    (List.mergeSort_enum).symm
  rw [step1, step2, step3]
  congr 1
  -- the enumerated main equality
  have hnd_fst : (l.enum.map Prod.fst).Nodup := by
    rw [List.enum_map_fst]
    exact List.nodup_range _
  have hnd_e : l.enum.Nodup := hnd_fst.of_map
  have hperm_m : (l.enum.mergeSort (List.enumLE (leBfn kB))).Perm l.enum :=
    List.mergeSort_perm _ _
  have hperm_out :
      ((l.enum.mergeSort (List.enumLE (leBfn kB))).mergeSort (rAfn kA)).Perm l.enum :=
    (List.mergeSort_perm _ _).trans hperm_m
  have hnd_out : ((l.enum.mergeSort (List.enumLE (leBfn kB))).mergeSort (rAfn kA)).Nodup :=
    (hperm_out.nodup_iff).mpr hnd_e
  have hm_sorted : (l.enum.mergeSort (List.enumLE (leBfn kB))).Pairwise
      (fun x y => List.enumLE (leBfn kB) x y = true) :=
    List.sorted_mergeSort (List.enumLE_trans (leBfn_trans kB)) (List.enumLE_total (leBfn_total kB)) _
  have hout_sortedA :
      ((l.enum.mergeSort (List.enumLE (leBfn kB))).mergeSort (rAfn kA)).Pairwise
        (fun x y => rAfn kA x y = true) :=
    List.sorted_mergeSort (rAfn_trans kA) (rAfn_total kA) _
  have hout_sortedLex :
      ((l.enum.mergeSort (List.enumLE (leBfn kB))).mergeSort (rAfn kA)).Pairwise
        (fun x y => List.enumLE (leLexFn kA kB) x y = true) := by
    rw [List.pairwise_iff_getElem]
    intro i j hi hj hij
    have hxy := List.pairwise_iff_getElem.mp hout_sortedA i j hi hj hij
    by_cases hyx : rAfn kA
        (((l.enum.mergeSort (List.enumLE (leBfn kB))).mergeSort (rAfn kA))[j])
        (((l.enum.mergeSort (List.enumLE (leBfn kB))).mergeSort (rAfn kA))[i]) = true
    · -- the two kA keys tie; use the inner sort's order
      have hAeq : kA (((l.enum.mergeSort (List.enumLE (leBfn kB))).mergeSort (rAfn kA))[i]).2 =
          kA (((l.enum.mergeSort (List.enumLE (leBfn kB))).mergeSort (rAfn kA))[j]).2 := by
        have h1 := of_decide_eq_true hxy
        have h2 := of_decide_eq_true hyx
        exact le_antisymm h1 h2
      have hx_mem : ((l.enum.mergeSort (List.enumLE (leBfn kB))).mergeSort (rAfn kA))[i] ∈
          l.enum.mergeSort (List.enumLE (leBfn kB)) :=
        List.mem_mergeSort.mp (List.getElem_mem hi)
      have hy_mem : ((l.enum.mergeSort (List.enumLE (leBfn kB))).mergeSort (rAfn kA))[j] ∈
          l.enum.mergeSort (List.enumLE (leBfn kB)) :=
        List.mem_mergeSort.mp (List.getElem_mem hj)
      obtain ⟨p, hxp⟩ := List.mem_iff_get.mp hx_mem
      obtain ⟨q, hyq⟩ := List.mem_iff_get.mp hy_mem
      rcases lt_trichotomy (p : Nat) (q : Nat) with hpq | hpq | hpq
      · have hsub := pair_sublist_of_indices (l.enum.mergeSort (List.enumLE (leBfn kB)))
          p q p.isLt q.isLt hpq
        rw [Fin.eta, Fin.eta, hxp, hyq] at hsub
        have hB := List.pairwise_pair.mp (List.Pairwise.sublist hsub hm_sorted)
        exact enumLE_lex_of_tie kA kB _ _ hAeq hB
      · exfalso
        have hpq' : p = q := Fin.ext hpq
        rw [hpq', hyq] at hxp
        have := (hnd_out.getElem_inj_iff).mp hxp
        omega
      · exfalso
        have hsub := pair_sublist_of_indices (l.enum.mergeSort (List.enumLE (leBfn kB)))
          q p q.isLt p.isLt hpq
        rw [Fin.eta, Fin.eta, hxp, hyq] at hsub
        have hsub' := List.pair_sublist_mergeSort (rAfn_trans kA) (rAfn_total kA) hyx hsub
        have := pair_sublist_index_order _ hnd_out _ _ hsub' j i hj hi
          (by rw [List.get_eq_getElem]) (by rw [List.get_eq_getElem])
        omega
    · -- strict kA order
      have hlt : kA (((l.enum.mergeSort (List.enumLE (leBfn kB))).mergeSort (rAfn kA))[i]).2 <
          kA (((l.enum.mergeSort (List.enumLE (leBfn kB))).mergeSort (rAfn kA))[j]).2 := by
        refine lt_of_le_not_le (of_decide_eq_true hxy) (fun hcon => hyx ?_)
        exact decide_eq_true hcon
      exact enumLE_lex_of_lt kA kB _ _ hlt
  have hrhs_sorted : (l.enum.mergeSort (List.enumLE (leLexFn kA kB))).Pairwise
      (fun x y => List.enumLE (leLexFn kA kB) x y = true) :=
    List.sorted_mergeSort (List.enumLE_trans (leLexFn_trans kA kB))
      (List.enumLE_total (leLexFn_total kA kB)) _
  have hanti : ∀ x ∈ (l.enum.mergeSort (List.enumLE (leBfn kB))).mergeSort (rAfn kA),
      ∀ y ∈ (l.enum.mergeSort (List.enumLE (leBfn kB))).mergeSort (rAfn kA),
      List.enumLE (leLexFn kA kB) x y = true →
      List.enumLE (leLexFn kA kB) y x = true → x = y := by
    intro x hx y hy h1 h2
    have hfst : x.1 = y.1 := enumLE_lex_antisymm_fst kA kB x y h1 h2
    have hxe : x ∈ l.enum := (hperm_out.mem_iff).mp hx
    have hye : y ∈ l.enum := (hperm_out.mem_iff).mp hy
    exact List.inj_on_of_nodup_map hnd_fst hxe hye hfst
  exact eq_of_perm_of_pairwise (hperm_out.trans (List.mergeSort_perm _ _).symm)
    hout_sortedLex hrhs_sorted hanti

/-- C8: `sorted_d_group ds values` is `zip ds values` sorted in ascending
lexicographic order of `(d[0], d[1])` — `d[1]` ascending faster than
`d[0]` — with each `d` keeping its associated value: the composition of
the two stable sorts equals the single stable `mergeSort` by that
lexicographic order, the result is a permutation of the zip, it is
pairwise lexicographically ordered, and pairs with equal `(d[0], d[1])`
keep their original relative order. -/
theorem sorted_d_group_spec {V : Type} (ds : List (ℚ × ℚ)) (values : List V) :
    sorted_d_group ds values =
      (ds.zip values).mergeSort (fun dp dq =>
        decide (dp.1.1 < dq.1.1 ∨ (dp.1.1 = dq.1.1 ∧ dp.1.2 ≤ dq.1.2)))
    ∧ (sorted_d_group ds values).Pairwise (fun dp dq =>
        dp.1.1 < dq.1.1 ∨ (dp.1.1 = dq.1.1 ∧ dp.1.2 ≤ dq.1.2))
    ∧ (sorted_d_group ds values).Perm (ds.zip values)
    ∧ ∀ dp dq : (ℚ × ℚ) × V, ([dp, dq]).Sublist (ds.zip values) →
        dp.1.1 = dq.1.1 → dp.1.2 = dq.1.2 →
        ([dp, dq]).Sublist (sorted_d_group ds values) := by
  have hmain : sorted_d_group ds values =
      (ds.zip values).mergeSort
        (leLexFn (fun dp : (ℚ × ℚ) × V => dp.1.1) (fun dp => dp.1.2)) := by
    show ((ds.zip values).mergeSort (fun dp dq => decide (dp.1.2 ≤ dq.1.2))).mergeSort
        (fun dp dq => decide (dp.1.1 ≤ dq.1.1)) = _
    exact mergeSort_mergeSort_lex (fun dp : (ℚ × ℚ) × V => dp.1.1) (fun dp => dp.1.2)
      (ds.zip values)
  refine ⟨hmain, ?_, ?_, ?_⟩
  · rw [hmain]
    have hs := List.sorted_mergeSort
      (leLexFn_trans (fun dp : (ℚ × ℚ) × V => dp.1.1) (fun dp => dp.1.2))
      (leLexFn_total (fun dp : (ℚ × ℚ) × V => dp.1.1) (fun dp => dp.1.2))
      (ds.zip values)
    exact hs.imp (fun h => of_decide_eq_true h)
  · rw [hmain]
    exact List.mergeSort_perm _ _
  · intro dp dq hsub h1 h2
    rw [hmain]
    refine List.pair_sublist_mergeSort
      (leLexFn_trans (fun dp : (ℚ × ℚ) × V => dp.1.1) (fun dp => dp.1.2))
      (leLexFn_total (fun dp : (ℚ × ℚ) × V => dp.1.1) (fun dp => dp.1.2))
      ?_ hsub
    exact decide_eq_true (Or.inr ⟨h1, le_of_eq h2⟩)

theorem sorted_d_group_spec_witness :
    ([((((1 : ℚ), (2 : ℚ))), "x"), ((((1 : ℚ), (2 : ℚ))), "y")]).Sublist
        ([(((1 : ℚ), (2 : ℚ))), (((1 : ℚ), (2 : ℚ)))].zip ["x", "y"])
    ∧ ([((((1 : ℚ), (2 : ℚ))), "x"), ((((1 : ℚ), (2 : ℚ))), "y")]).Sublist
        (sorted_d_group [(((1 : ℚ), (2 : ℚ))), (((1 : ℚ), (2 : ℚ)))] ["x", "y"]) :=
  ⟨List.Sublist.refl _,
   (sorted_d_group_spec [(((1 : ℚ), (2 : ℚ))), (((1 : ℚ), (2 : ℚ)))] ["x", "y"]).2.2.2
     ((((1 : ℚ), (2 : ℚ))), "x") ((((1 : ℚ), (2 : ℚ))), "y")
     (List.Sublist.refl _) rfl rfl⟩

end Tmd
